import Mathlib

set_option maxHeartbeats 1000000

namespace LLMRad

/-!
Shallow embedding of the extraction-repair-normalize pipeline of the
LLMradiology repository (extract_info16.py, extract_info23.py,
new_extract_info2.py, new_extract_info3.py).

Python values produced by `json.loads` are modelled by `Json`; numeric
literals keep their lexeme verbatim (the pipeline never does arithmetic on
them).  Python dicts are association lists that are kept duplicate-free by
`pyInsert` (last assignment wins, first-insertion position kept), exactly
like CPython dicts.  Character classes (`\w`, `\s`, `str.strip`,
`str.lower`) are modelled on their ASCII parts, which covers every string
the claims quantify over.
-/

/-- JSON values as returned by Python `json.loads`. -/
inductive Json where
  | null : Json
  | bool : Bool → Json
  | num : String → Json
  | str : String → Json
  | arr : List Json → Json
  | obj : List (String × Json) → Json
  deriving Repr

/-- Python exceptions that the modelled code can raise. -/
inductive PyErr where
  | typeErr
  | keyErr
  | indexErr
  | valueErr
  | nameErr
  | attrErr
  deriving Repr, DecidableEq

/-- ASCII part of the regex class `\w` (re module, `[a-zA-Z0-9_]`). -/
def isPyWordChar (c : Char) : Bool := c.isAlphanum || c = '_'

/-- ASCII part of the regex class `\s` and of `str.strip` whitespace. -/
def isPyWs (c : Char) : Bool :=
  c = ' ' || c = '\t' || c = '\n' || c = '\r' || c = '\x0b' || c = '\x0c'

/-- Whitespace accepted by the JSON grammar (`json.loads`): space, tab, LF, CR. -/
def isJsonWs (c : Char) : Bool := c = ' ' || c = '\t' || c = '\n' || c = '\r'

/-- Python `str.strip()` on the character list (ASCII whitespace). -/
def pyStripList (l : List Char) : List Char :=
  ((l.dropWhile isPyWs).reverse.dropWhile isPyWs).reverse

/-- Python `str.strip()`. -/
def pyStrip (s : String) : String := ⟨pyStripList s.data⟩

/-- Python `str.lower()` (ASCII part). -/
def pyLower (s : String) : String := ⟨s.data.map Char.toLower⟩

/-- List-prefix test, `needle` against the head of `hay`. -/
def hasPrefixList : List Char → List Char → Bool
  | [], _ => true
  | _ :: _, [] => false
  | p :: ps, c :: cs => p = c && hasPrefixList ps cs

/-- Python substring test `needle in hay`. -/
def strContainsList (hay needle : List Char) : Bool :=
  match hay with
  | [] => needle.isEmpty
  | _ :: t => hasPrefixList needle hay || strContainsList t needle

/-- CPython dict assignment `d[k] = v` on an association list: overwrite the
existing entry in place, else append at the end. -/
def pyInsert (kvs : List (String × Json)) (k : String) (v : Json) :
    List (String × Json) :=
  match kvs with
  | [] => [(k, v)]
  | (k', v') :: t => if k' = k then (k', v) :: t else (k', v') :: pyInsert t k v

/-- Dict lookup `d[k]` returning `none` when the key is absent. -/
def objGet (kvs : List (String × Json)) (k : String) : Option Json :=
  match kvs with
  | [] => none
  | (k', v) :: t => if k' = k then some v else objGet t k

/-- Python `d.get(k, default)`. -/
def dictGetD (kvs : List (String × Json)) (k : String) (d : Json) : Json :=
  (objGet kvs k).getD d

/-- Lookup on a `Json` value that is expected to be an object. -/
def objGetJson (j : Json) (k : String) : Option Json :=
  match j with
  | .obj kvs => objGet kvs k
  | _ => none

/-! ## The JSON parser (model of Python `json.loads`)

`json.loads` is strict JSON plus the CPython extensions `NaN`, `Infinity`
and `-Infinity`.  Numbers keep their lexeme.  Strings are decoded
(escapes processed); a surrogate pair `\uD..\uD..` is combined, a lone
surrogate falls back to `Char.ofNat`'s default, which is the only place the
model is coarser than CPython. -/

/-- Hexadecimal digit value (codepoint arithmetic: 48-57 are the digits,
97-102 lowercase a-f, 65-70 uppercase A-F). -/
def hexVal (c : Char) : Option Nat :=
  let n := c.toNat
  if 48 ≤ n && n ≤ 57 then some (n - 48)
  else if 97 ≤ n && n ≤ 102 then some (n - 87)
  else if 65 ≤ n && n ≤ 70 then some (n - 55)
  else none

/-- Four hex digits of a `\uXXXX` escape. -/
def parseHex4 (l : List Char) : Option (Nat × List Char) :=
  match l with
  | a :: b :: c :: d :: rest => do
    let va ← hexVal a
    let vb ← hexVal b
    let vc ← hexVal c
    let vd ← hexVal d
    some (va * 4096 + vb * 256 + vc * 16 + vd, rest)
  | _ => none

/-- Decode a JSON string body (after the opening quote), returning the decoded
characters and the rest of the input after the closing quote. -/
def parseStringBody : Nat → List Char → Option (List Char × List Char)
  | 0, _ => none
  | _ + 1, [] => none
  | fuel + 1, c :: t =>
    if c = '"' then some ([], t)
    else if c = '\\' then
      match t with
      | [] => none
      | e :: t2 =>
        if e = '"' then (parseStringBody fuel t2).map (fun p => ('"' :: p.1, p.2))
        else if e = '\\' then (parseStringBody fuel t2).map (fun p => ('\\' :: p.1, p.2))
        else if e = '/' then (parseStringBody fuel t2).map (fun p => ('/' :: p.1, p.2))
        else if e = 'b' then (parseStringBody fuel t2).map (fun p => ('\x08' :: p.1, p.2))
        else if e = 'f' then (parseStringBody fuel t2).map (fun p => ('\x0c' :: p.1, p.2))
        else if e = 'n' then (parseStringBody fuel t2).map (fun p => ('\n' :: p.1, p.2))
        else if e = 'r' then (parseStringBody fuel t2).map (fun p => ('\r' :: p.1, p.2))
        else if e = 't' then (parseStringBody fuel t2).map (fun p => ('\t' :: p.1, p.2))
        else if e = 'u' then
          match parseHex4 t2 with
          | none => none
          | some (n, t3) =>
            if 0xD800 ≤ n && n ≤ 0xDBFF then
              match t3 with
              | '\\' :: 'u' :: t4 =>
                match parseHex4 t4 with
                | some (m, t5) =>
                  if 0xDC00 ≤ m && m ≤ 0xDFFF then
                    (parseStringBody fuel t5).map
                      (fun p => (Char.ofNat (0x10000 + (n - 0xD800) * 1024 + (m - 0xDC00)) :: p.1, p.2))
                  else (parseStringBody fuel t3).map (fun p => (Char.ofNat n :: p.1, p.2))
                | none => (parseStringBody fuel t3).map (fun p => (Char.ofNat n :: p.1, p.2))
              | _ => (parseStringBody fuel t3).map (fun p => (Char.ofNat n :: p.1, p.2))
            else (parseStringBody fuel t3).map (fun p => (Char.ofNat n :: p.1, p.2))
        else none
    else if c.toNat < 0x20 then none
    else (parseStringBody fuel t).map (fun p => (c :: p.1, p.2))

/-- Digit run. -/
def takeDigits (l : List Char) : List Char × List Char :=
  (l.takeWhile Char.isDigit, l.dropWhile Char.isDigit)

/-- Integer part of the JSON number grammar: `0` or `[1-9][0-9]*`. -/
def parseIntPart (l : List Char) : Option (List Char × List Char) :=
  match l with
  | '0' :: rest => some (['0'], rest)
  | c :: rest =>
    if c.isDigit then
      let p := takeDigits rest
      some (c :: p.1, p.2)
    else none
  | [] => none

/-- Optional fraction part `.[0-9]+`. -/
def parseFracPart (l : List Char) : List Char × List Char :=
  match l with
  | '.' :: rest =>
    let p := takeDigits rest
    if p.1.isEmpty then ([], l) else ('.' :: p.1, p.2)
  | _ => ([], l)

/-- Optional exponent part `[eE][+-]?[0-9]+`. -/
def parseExpPart (l : List Char) : List Char × List Char :=
  match l with
  | c :: rest =>
    if c = 'e' || c = 'E' then
      match rest with
      | s :: rest2 =>
        if s = '+' || s = '-' then
          let p := takeDigits rest2
          if p.1.isEmpty then ([], l) else (c :: s :: p.1, p.2)
        else
          let p := takeDigits rest
          if p.1.isEmpty then ([], l) else (c :: p.1, p.2)
      | [] => ([], l)
    else ([], l)
  | [] => ([], l)

/-- JSON number lexeme `-?(0|[1-9][0-9]*)(\.[0-9]+)?([eE][+-]?[0-9]+)?`. -/
def parseNumber (l : List Char) : Option (List Char × List Char) :=
  match l with
  | '-' :: rest => do
    let (ip, r1) ← parseIntPart rest
    let (fp, r2) := parseFracPart r1
    let (ep, r3) := parseExpPart r2
    some ('-' :: (ip ++ fp ++ ep), r3)
  | _ => do
    let (ip, r1) ← parseIntPart l
    let (fp, r2) := parseFracPart r1
    let (ep, r3) := parseExpPart r2
    some (ip ++ fp ++ ep, r3)

/-- Skip JSON whitespace. -/
def skipJsonWs (l : List Char) : List Char := l.dropWhile isJsonWs

mutual

/-- Parse one JSON value (leading whitespace skipped), fuel-bounded. -/
def parseVal : Nat → List Char → Option (Json × List Char)
  | 0, _ => none
  | fuel + 1, input =>
    match skipJsonWs input with
    | [] => none
    | '\x7b' :: t =>
      match skipJsonWs t with
      | '\x7d' :: r => some (.obj [], r)
      | _ => parseMembers fuel t []
    | '[' :: t =>
      match skipJsonWs t with
      | ']' :: r => some (.arr [], r)
      | _ => parseElems fuel t []
    | '"' :: t =>
      (parseStringBody (t.length + 1) t).map (fun p => (.str ⟨p.1⟩, p.2))
    | c :: t =>
      if hasPrefixList "true".data (c :: t) then some (.bool true, (c :: t).drop 4)
      else if hasPrefixList "false".data (c :: t) then some (.bool false, (c :: t).drop 5)
      else if hasPrefixList "null".data (c :: t) then some (.null, (c :: t).drop 4)
      else if hasPrefixList "NaN".data (c :: t) then some (.num "NaN", (c :: t).drop 3)
      else if hasPrefixList "Infinity".data (c :: t) then some (.num "Infinity", (c :: t).drop 8)
      else if hasPrefixList "-Infinity".data (c :: t) then some (.num "-Infinity", (c :: t).drop 9)
      else (parseNumber (c :: t)).map (fun p => (.num ⟨p.1⟩, p.2))

/-- Parse the members of an object after its `\x7b`, accumulating into a
CPython-style dict. -/
def parseMembers : Nat → List Char → List (String × Json) → Option (Json × List Char)
  | 0, _, _ => none
  | fuel + 1, input, acc =>
    match skipJsonWs input with
    | '"' :: t =>
      match parseStringBody (t.length + 1) t with
      | some (key, r1) =>
        match skipJsonWs r1 with
        | ':' :: r2 =>
          match parseVal fuel r2 with
          | some (v, r3) =>
            match skipJsonWs r3 with
            | ',' :: r4 => parseMembers fuel r4 (pyInsert acc ⟨key⟩ v)
            | '\x7d' :: r4 => some (.obj (pyInsert acc ⟨key⟩ v), r4)
            | _ => none
          | none => none
        | _ => none
      | none => none
    | _ => none

/-- Parse the elements of an array after its `[`. -/
def parseElems : Nat → List Char → List Json → Option (Json × List Char)
  | 0, _, _ => none
  | fuel + 1, input, acc =>
    match parseVal fuel input with
    | some (v, r1) =>
      match skipJsonWs r1 with
      | ',' :: r2 => parseElems fuel r2 (acc ++ [v])
      | ']' :: r2 => some (.arr (acc ++ [v]), r2)
      | _ => none
    | none => none

end

/-- Model of `json.loads` on a character list: parse one value, allow only
trailing whitespace.  The fuel `2 * length + 2` dominates the recursion
depth of any input that parses. -/
def parseFullList (l : List Char) : Option Json :=
  match parseVal (2 * l.length + 2) l with
  | some (v, rest) => if skipJsonWs rest = [] then some v else none
  | none => none

/-- Model of Python `json.loads` on a string. -/
def pyJsonLoads (s : String) : Option Json := parseFullList s.data

/-! ## fix_malformed_json (extract_info16.py lines 7-29) -/

/-- First half of the bracket-balance step: if `\x7b` outnumber `\x7d`,
append one `\x7d`. -/
def braceFixCurly (l : List Char) : List Char :=
  if l.count '\x7d' < l.count '\x7b' then l ++ ['\x7d'] else l

/-- Bracket-balance step: the `\x7b`/`\x7d` check, then the `[`/`]` check on
the possibly extended string.  A single closer each, exactly as the
source. -/
def bracketFix (l : List Char) : List Char :=
  if (braceFixCurly l).count ']' < (braceFixCurly l).count '[' then
    braceFixCurly l ++ [']']
  else braceFixCurly l

/-- One attempt of the comma-repair regex
`("\w+":\s?"[^\"]+)"\s*("\w+":)` at the head of the input: the `\s?` part,
which must be followed by the opening quote of the value. -/
def reMatchWsQuote (t4 : List Char) : Option (List Char × List Char) :=
  match t4 with
  | c :: rest =>
    if c = '"' then some (['"'], rest)
    else
      if isPyWs c then
        match rest with
        | '"' :: r2 => some ([c, '"'], r2)
        | _ => none
      else none
  | [] => none

/-- Continuation of the comma-repair regex after the value-opening quote:
`[^\"]+` then the literal closing quote, `\s*`, and group 2 `("\w+":)`.
Returns the value content, group 2, and the rest after the match. -/
def reMatchValueKey (t5 : List Char) : Option (List Char × List Char × List Char) :=
  let content := t5.takeWhile (fun c => decide (c ≠ '"'))
  let t6 := t5.dropWhile (fun c => decide (c ≠ '"'))
  if content.isEmpty then none
  else
    match t6 with
    | '"' :: t7 =>
      let t8 := t7.dropWhile isPyWs
      match t8 with
      | '"' :: t9 =>
        let w2 := t9.takeWhile isPyWordChar
        let t10 := t9.dropWhile isPyWordChar
        if w2.isEmpty then none
        else
          match t10 with
          | '"' :: ':' :: rest => some (content, '"' :: (w2 ++ ['"', ':']), rest)
          | _ => none
      | _ => none
    | _ => none

/-- Match of the full comma-repair regex at the head of the input, returning
(group 1, group 2, rest after the match).  Maximal munch is exact here: each
greedy piece is followed by a character its class excludes. -/
def reMatchComma (l : List Char) : Option (List Char × List Char × List Char) :=
  match l with
  | '"' :: t1 =>
    let w := t1.takeWhile isPyWordChar
    let t2 := t1.dropWhile isPyWordChar
    if w.isEmpty then none
    else
      match t2 with
      | '"' :: ':' :: t4 =>
        match reMatchWsQuote t4 with
        | some (mid, t5) =>
          match reMatchValueKey t5 with
          | some (content, g2, rest) =>
            some ('"' :: (w ++ ['"', ':'] ++ mid ++ content), g2, rest)
          | none => none
        | none => none
      | _ => none
  | _ => none

/-- Left-to-right scan of `re.sub` with replacement `\1,\2`: on a match emit
group 1, a comma and group 2 (dropping the matched closing quote and the
whitespace), resume after the match; otherwise advance one character. -/
def commaFixGo : Nat → List Char → List Char
  | 0, l => l
  | _ + 1, [] => []
  | fuel + 1, c :: t =>
    match reMatchComma (c :: t) with
    | some (g1, g2, rest) => g1 ++ ',' :: (g2 ++ commaFixGo fuel rest)
    | none => c :: commaFixGo fuel t

/-- The comma-repair substitution on a character list. -/
def commaFixList (l : List Char) : List Char := commaFixGo l.length l

/-- The comma-repair substitution `re.sub(r'("\w+":\s?"[^\"]+)"\s*("\w+":)', r'\1,\2', s)`. -/
def commaFix (s : String) : String := ⟨commaFixList s.data⟩

/-- Model of `fix_malformed_json` (extract_info16.py): strip, balance
brackets, comma repair, then strict parse; `none` models the `None` return
on `json.JSONDecodeError`. -/
def fixMalformedJson (s : String) : Option Json :=
  parseFullList (commaFixList (bracketFix (pyStripList s.data)))

/-! ## extract_info_from_report (extract_info16.py lines 67-129), post-LLM part -/

/-- Index of the last occurrence of `c`. -/
def lastIdxOf (l : List Char) (c : Char) : Option Nat :=
  match l.reverse.findIdx? (fun x => x = c) with
  | some k => some (l.length - 1 - k)
  | none => none

/-- Model of `re.search(r"\x7b.*\x7d", content, re.DOTALL)`: the span from the
first `\x7b` to the last `\x7d`, provided the latter comes after the former. -/
def findJsonSpan (l : List Char) : Option (List Char) :=
  match l.findIdx? (fun x => x = '\x7b') with
  | none => none
  | some i =>
    match lastIdxOf l '\x7d' with
    | none => none
    | some j => if i < j then some ((l.drop i).take (j - i + 1)) else none

/-- Scan of `re.sub(r",\s*([\]\x7d])", r"\1", s)`: delete any comma (plus
whitespace) that directly precedes a closing bracket, resuming after the
bracket. -/
def trailingFixGo : Nat → List Char → List Char
  | 0, l => l
  | _ + 1, [] => []
  | fuel + 1, c :: t =>
    if c = ',' then
      match t.dropWhile isPyWs with
      | b :: rest =>
        if b = '\x7d' || b = ']' then b :: trailingFixGo fuel rest
        else c :: trailingFixGo fuel t
      | [] => c :: trailingFixGo fuel t
    else c :: trailingFixGo fuel t

/-- Trailing-comma repair on a character list. -/
def trailingFixList (l : List Char) : List Char := trailingFixGo l.length l

/-- Extraction core of `extract_info_from_report`: locate the JSON-shaped
span in the raw reply, remove trailing commas, strict-parse, then require a
dict with a `specimens` list.  `none` models every `None` return (no span,
decode error, wrong shape, or a backend failure = `none` input). -/
def extractSpecimens16 (content : Option String) : Option (List Json) :=
  match content with
  | none => none
  | some c =>
    match findJsonSpan c.data with
    | none => none
    | some span =>
      match parseFullList (trailingFixList span) with
      | some (.obj kvs) =>
        match objGet kvs "specimens" with
        | some (.arr l) => some l
        | _ => none
      | _ => none

/-! ## Main loop of extract_info16.py (lines 151-185) -/

/-- The stub specimen substituted when extraction fails (lines 168-177);
`study_id` falls back to `subject_<line>` when the accession string is
falsy (empty). -/
def stubSpecimen16 (acc : String) (ln : Nat) : Json :=
  .obj [("study_id", .str (if acc = "" then "subject_" ++ toString ln else acc)),
        ("specimen_name", .str "Specimen Unknown"),
        ("gleason_score", .str "No GS"),
        ("gleason_pattern", .str "No GP"),
        ("num_cores", .str "No #C"),
        ("percent_specimen", .str "unknown"),
        ("features", .obj [("HGPIN", .num "0"), ("ASAP", .num "0"),
                           ("ATYP", .num "0"), ("INF", .num "0"), ("ADC", .num "0")]),
        ("comment", .str "No comment")]

/-- `List.mapM` for `Except` written by structural recursion, evaluating
left to right and stopping at the first raised error, like a Python loop. -/
def eMapM (f : α → Except PyErr β) : List α → Except PyErr (List β)
  | [] => .ok []
  | x :: t =>
    match f x with
    | .error e => .error e
    | .ok y =>
      match eMapM f t with
      | .error e => .error e
      | .ok ys => .ok (y :: ys)

/-- One iteration of the benign override: the three key assignments on a
specimen; assigning into a non-dict raises `TypeError`. -/
def benignSet (j : Json) : Except PyErr Json :=
  match j with
  | .obj kvs =>
    .ok (.obj (pyInsert (pyInsert (pyInsert kvs "gleason_score" (.str "benign"))
      "gleason_pattern" (.str "benign")) "comment" (.str "benign")))
  | _ => .error .typeErr

/-- The benign override loop (lines 179-183): when the lowercased report
contains "benign", every specimen gets the three fields forced. -/
def applyBenign (report : String) (specs : List Json) : Except PyErr (List Json) :=
  if strContainsList (pyLower report).data "benign".data then eMapM benignSet specs
  else .ok specs

/-- Per-subject resolution in the main loop: extraction result or the stub,
then the benign override. -/
def resolvedSpecimens16 (content : Option String) (acc : String) (ln : Nat)
    (report : String) : Except PyErr (List Json) :=
  let specs :=
    match extractSpecimens16 content with
    | some l => l
    | none => [stubSpecimen16 acc ln]
  applyBenign report specs

/-! ## Flattening and column generation (extract_info16.py lines 187-217) -/

/-- The 11 cells of one specimen block, in source order; `.get` calls on a
non-dict specimen, or on a non-dict `features` value, raise
`AttributeError`. -/
def specimenCells (j : Json) : Except PyErr (List Json) :=
  match j with
  | .obj kvs =>
    match dictGetD kvs "features" (.obj []) with
    | .obj fk =>
      .ok [dictGetD kvs "specimen_name" (.str ""),
           dictGetD kvs "gleason_score" (.str ""),
           dictGetD kvs "gleason_pattern" (.str ""),
           dictGetD kvs "num_cores" (.str ""),
           dictGetD kvs "percent_specimen" (.str ""),
           dictGetD fk "HGPIN" (.num "0"),
           dictGetD fk "ASAP" (.num "0"),
           dictGetD fk "ATYP" (.num "0"),
           dictGetD fk "INF" (.num "0"),
           dictGetD fk "ADC" (.num "0"),
           dictGetD kvs "comment" (.str "")]
    | _ => .error .attrErr
  | _ => .error .attrErr

/-- `report_data[0]["study_id"]`: `IndexError` on an empty list, `TypeError`
on a non-dict first element, `KeyError` when the key is missing. -/
def rowStudyId (specs : List Json) : Except PyErr Json :=
  match specs with
  | [] => .error .indexErr
  | first :: _ =>
    match first with
    | .obj kvs =>
      match objGet kvs "study_id" with
      | some v => .ok v
      | none => .error .keyErr
    | _ => .error .typeErr

/-- The `max_specimens` specimen blocks of one row: the subject's own
specimens first, then blocks of 11 empty-string cells. -/
def rowBlocks (maxN : Nat) (specs : List Json) : Except PyErr (List (List Json)) :=
  eMapM (fun i =>
    match specs.get? i with
    | some sp => specimenCells sp
    | none => .ok (List.replicate 11 (.str "")))
    (List.range maxN)

/-- One flattened output row: the identity cell then the joined blocks. -/
def rowOf (maxN : Nat) (specs : List Json) : Except PyErr (List Json) :=
  match rowStudyId specs with
  | .error e => .error e
  | .ok sid =>
    match rowBlocks maxN specs with
    | .error e => .error e
    | .ok blocks => .ok (sid :: blocks.flatten)

/-- `max(len(report) for report in extracted_data)` for a non-empty batch. -/
def maxLens (batch : List (List Json)) : Nat :=
  batch.foldl (fun m l => max m l.length) 0

/-- The 11 positional column names of specimen slot `i` (0-based). -/
def headerBlock (i : Nat) : List String :=
  let n := toString (i + 1)
  ["Specimen_" ++ n, "GS_" ++ n, "GP_" ++ n, "#C_" ++ n, "%Spec_" ++ n,
   "HGPIN_" ++ n, "ASAP_" ++ n, "ATYP_" ++ n, "INF_" ++ n, "ADC_" ++ n,
   "Comment_" ++ n]

/-- The full header row for `maxN` specimen slots. -/
def headersFor (maxN : Nat) : List String :=
  "StudyID" :: (List.range maxN).flatMap headerBlock

/-- The flattening step: headers and one row per subject; an empty batch
raises `ValueError` (`max` of an empty generator). -/
def flattenBatch (batch : List (List Json)) :
    Except PyErr (List String × List (List Json)) :=
  match batch with
  | [] => .error .valueErr
  | _ :: _ =>
    match eMapM (rowOf (maxLens batch)) batch with
    | .error e => .error e
    | .ok rows => .ok (headersFor (maxLens batch), rows)

/-- One subject of the batch input: the backend reply for the detail prompt
(`none` when the call failed), the accession number, the 1-based line
number, and the raw report text. -/
structure SubjectInput where
  content : Option String
  acc : String
  line : Nat
  report : String

/-- The whole run of extract_info16.py after input validation: resolve every
subject, then flatten.  Any uncaught per-subject exception aborts the run,
exactly as an uncaught Python exception would. -/
def pipelineRows16 (subs : List SubjectInput) :
    Except PyErr (List String × List (List Json)) :=
  match eMapM (fun s => resolvedSpecimens16 s.content s.acc s.line s.report) subs with
  | .error e => .error e
  | .ok batch => flattenBatch batch

/-! ## clean_json_output (extract_info23.py lines 12-25, new_extract_info3.py
lines 12-22; the two definitions are identical) -/

/-- Character classes at which Python `str.splitlines` breaks. -/
def isLineBreakChar (c : Char) : Bool :=
  c = '\n' || c = '\r' || c = '\x0b' || c = '\x0c' ||
  c = '\x1c' || c = '\x1d' || c = '\x1e' || c = '\u0085' ||
  c = '\u2028' || c = '\u2029'

/-- Python `str.splitlines` (no trailing empty line, `\r\n` as one break). -/
def splitlinesGo : Nat → List Char → List (List Char)
  | 0, _ => []
  | _ + 1, [] => []
  | fuel + 1, l =>
    let line := l.takeWhile (fun c => !isLineBreakChar c)
    match l.dropWhile (fun c => !isLineBreakChar c) with
    | [] => [line]
    | '\r' :: '\n' :: r => line :: splitlinesGo fuel r
    | _ :: r => line :: splitlinesGo fuel r

/-- Python `str.splitlines` on a character list. -/
def splitlines (l : List Char) : List (List Char) := splitlinesGo l.length l

/-- Python `str.splitlines` on a string. -/
def splitlinesStr (s : String) : List String :=
  (splitlines s.data).map (fun cs => ⟨cs⟩)

/-- The code-fence marker. -/
def fenceMarker : String := "```"

/-- `"\n".join(lines)`. -/
def joinNL : List (List Char) → List Char
  | [] => []
  | [l] => l
  | l :: t => l ++ '\n' :: joinNL t

/-- Drop the last line when it starts with the fence marker (the
`if lines and lines[-1].startswith(...)` step). -/
def dropLastFence (ls : List (List Char)) : List (List Char) :=
  match ls.getLast? with
  | some last => if hasPrefixList fenceMarker.data last then ls.dropLast else ls
  | none => ls

/-- Drop the first line when it starts with the fence marker (the
`if lines[0].startswith(...)` step). -/
def dropFirstFence (ls : List (List Char)) : List (List Char) :=
  match ls with
  | first :: rest => if hasPrefixList fenceMarker.data first then rest else ls
  | [] => ls

/-- Model of `clean_json_output`: strip, and only when the stripped text
starts with a fence drop the first line (whose fence test always holds
then), drop a fence last line, re-join and re-strip. -/
def cleanJsonOutput (s : String) : String :=
  let out := pyStripList s.data
  if hasPrefixList fenceMarker.data out then
    ⟨pyStripList (joinNL (dropLastFence (dropFirstFence (splitlines out))))⟩
  else ⟨out⟩

/-! ## get_number_of_specimens (new_extract_info3.py lines 59-93) -/

/-- The pair `(1, [])` returned by the failure branch, as a 2-tuple. -/
def failPair : List Json := [.num "1", .arr []]

/-- The three component expressions of the success branch's return tuple,
evaluated left to right; the third one reads the undefined name
`specimen_text` and raises `NameError`. -/
def successItems (kvs : List (String × Json)) : List (Except PyErr Json) :=
  [.ok (dictGetD kvs "number_of_specimens" (.num "1")),
   .ok (dictGetD kvs "specimen_names" (.arr [])),
   .error .nameErr]

/-- Model of `get_number_of_specimens` of new_extract_info3.py, after
`run_ollama` (whose every failure path returns `None` = `none` here).  The
guard `response and isinstance(response, dict)` is true exactly for a
non-empty dict (an empty dict is falsy in Python). -/
def getNumberOfSpecimens3 (response : Option Json) : Except PyErr (List Json) :=
  match response with
  | some (.obj kvs) =>
    if kvs.isEmpty then .ok failPair
    else eMapM (fun x => x) (successItems kvs)
  | _ => .ok failPair

/-! ## CSV loop of new_extract_info2.py lines 74-85 (identical block at
new_extract_info3.py lines 177-188) -/

/-- Python `s.split(sep)` for a non-empty separator. -/
def pySplitGo (sep : List Char) : Nat → List Char → List Char → List (List Char)
  | 0, l, acc => [acc ++ l]
  | fuel + 1, l, acc =>
    match l with
    | [] => [acc]
    | c :: t =>
      if hasPrefixList sep l then acc :: pySplitGo sep fuel (l.drop sep.length) []
      else pySplitGo sep fuel t (acc ++ [c])

/-- Python `s.split(sep)`. -/
def pySplit (s : String) (sep : String) : List (List Char) :=
  pySplitGo sep.data (s.data.length + 1) s.data []

/-- The loop body: one `process_report` call per segment of
`report_text.split("  ")`, appended in order; the backend is abstracted as
an arbitrary function `pr` from segment to structured data. -/
def subjectSpecimens (pr : List Char → Json) (report : String) : List Json :=
  (pySplit report "  ").foldl (fun acc seg => acc ++ [pr seg]) []

/-! ## Spec-side companions and concrete claim inputs -/

/-- Well-shapedness of one specimen for the flattening step: a dict whose
`features` entry, when present, is itself a dict (otherwise a `.get` in the
row loop raises `AttributeError`). -/
def specWellShaped (j : Json) : Bool :=
  match j with
  | .obj kvs =>
    match objGet kvs "features" with
    | some (.obj _) => true
    | some _ => false
    | none => true
  | _ => false

/-- Well-shapedness of one subject's specimen list for the flattening step:
non-empty, first element carries `study_id`, every element well-shaped. -/
def subjectWellShaped (specs : List Json) : Bool :=
  match specs with
  | [] => false
  | first :: _ => (objGetJson first "study_id").isSome && specs.all specWellShaped

/-- Total companion of `specimenCells`, meaningful on well-shaped
specimens. -/
def specimenCellsOk (j : Json) : List Json :=
  match j with
  | .obj kvs =>
    match dictGetD kvs "features" (.obj []) with
    | .obj fk =>
      [dictGetD kvs "specimen_name" (.str ""),
       dictGetD kvs "gleason_score" (.str ""),
       dictGetD kvs "gleason_pattern" (.str ""),
       dictGetD kvs "num_cores" (.str ""),
       dictGetD kvs "percent_specimen" (.str ""),
       dictGetD fk "HGPIN" (.num "0"),
       dictGetD fk "ASAP" (.num "0"),
       dictGetD fk "ATYP" (.num "0"),
       dictGetD fk "INF" (.num "0"),
       dictGetD fk "ADC" (.num "0"),
       dictGetD kvs "comment" (.str "")]
    | _ => List.replicate 11 .null
  | _ => List.replicate 11 .null

/-- An all-empty specimen block (the padding of short rows). -/
def emptyBlock : List Json := List.replicate 11 (.str "")

/-- The identity cell of a row: `study_id` of the first specimen. -/
def sidOf (specs : List Json) : Json :=
  (objGetJson (specs.headD .null) "study_id").getD .null

/-- Normal form of one flattened row: identity cell, then the subject's own
specimen blocks in their original order, then empty padding blocks up to
`maxN`. -/
def rowValOf (maxN : Nat) (specs : List Json) : List Json :=
  sidOf specs ::
    (specs.map specimenCellsOk ++
      List.replicate (maxN - specs.length) emptyBlock).flatten

/-- The 11 data cells of the stub specimen, in row order. -/
def stubCells : List Json :=
  [.str "Specimen Unknown", .str "No GS", .str "No GP", .str "No #C",
   .str "unknown", .num "0", .num "0", .num "0", .num "0", .num "0",
   .str "No comment"]

/-- The full-width row a failed subject produces (one specimen slot). -/
def stubRowOf (s : SubjectInput) : List Json :=
  .str (if s.acc = "" then "subject_" ++ toString s.line else s.acc) :: stubCells

/-- First claim scenario input: truncated reply missing two `\x7d` and one
`]`. -/
def c1Input : String := "\x7b\"specimens\": [\x7b\"gleason_score\": \"7\""

/-- A successfully parsing backend reply whose specimens list is empty. -/
def c2Reply : String := "\x7b\"specimens\": []\x7d"

/-- Valid JSON whose raw `\x7b` count exceeds its `\x7d` count (the brace
lives inside a string literal). -/
def c4Input : String := "[\"\x7b\"]"

/-- Text with a missing comma between two quoted key-value fragments. -/
def c7Input : String := "\x7b\"a\": \"b\" \"c\": \"d\"\x7d"

/-- What the comma-repair regex actually produces on `c7Input`: the closing
quote of the first value and the separating space are deleted. -/
def c7Mangled : String := "\x7b\"a\": \"b,\"c\": \"d\"\x7d"

/-- What a comma insertion that left both fragments intact would produce. -/
def c7Intended : String := "\x7b\"a\": \"b\", \"c\": \"d\"\x7d"

/-- Input whose trimmed last line is a bare fence marker while the first
line is not a fence. -/
def c8Input : String := " hello\n```"

/-! ## Helper lemmas -/

theorem eMapM_ok_length {α β : Type} {f : α → Except PyErr β} :
    ∀ {l : List α} {l' : List β}, eMapM f l = .ok l' → l'.length = l.length := by
  intro l
  induction l with
  | nil =>
    intro l' h
    simp only [eMapM] at h
    cases h
    rfl
  | cons x t ih =>
    intro l' h
    simp only [eMapM] at h
    cases hf : f x with
    | error e => rw [hf] at h; cases h
    | ok y =>
      rw [hf] at h
      cases ht : eMapM f t with
      | error e => rw [ht] at h; cases h
      | ok ys =>
        rw [ht] at h
        cases h
        simp [ih ht]

theorem eMapM_ok_mem {α β : Type} {f : α → Except PyErr β} :
    ∀ {l : List α} {l' : List β}, eMapM f l = .ok l' →
      ∀ y ∈ l', ∃ x ∈ l, f x = .ok y := by
  intro l
  induction l with
  | nil =>
    intro l' h y hy
    simp only [eMapM] at h
    cases h
    cases hy
  | cons x t ih =>
    intro l' h y hy
    simp only [eMapM] at h
    cases hf : f x with
    | error e => rw [hf] at h; cases h
    | ok z =>
      rw [hf] at h
      cases ht : eMapM f t with
      | error e => rw [ht] at h; cases h
      | ok ys =>
        rw [ht] at h
        cases h
        rcases List.mem_cons.mp hy with hy | hy
        · subst hy
          exact ⟨x, List.mem_cons_self x t, hf⟩
        · obtain ⟨x', hx', hfx'⟩ := ih ht y hy
          exact ⟨x', List.mem_cons_of_mem x hx', hfx'⟩

theorem eMapM_map {α β : Type} {f : α → Except PyErr β} {g : α → β} :
    ∀ {l : List α}, (∀ x ∈ l, f x = .ok (g x)) → eMapM f l = .ok (l.map g) := by
  intro l
  induction l with
  | nil => intro _; rfl
  | cons x t ih =>
    intro h
    simp only [eMapM]
    rw [h x (List.mem_cons_self x t), ih (fun y hy => h y (List.mem_cons_of_mem x hy))]
    rfl

theorem objGet_pyInsert_same (kvs : List (String × Json)) (k : String) (v : Json) :
    objGet (pyInsert kvs k v) k = some v := by
  induction kvs with
  | nil => simp [pyInsert, objGet]
  | cons p t ih =>
    obtain ⟨k', v'⟩ := p
    by_cases h : k' = k
    · simp [pyInsert, objGet, h]
    · simp [pyInsert, objGet, h, ih]

theorem objGet_pyInsert_other (kvs : List (String × Json)) {k k' : String} (v : Json)
    (hne : k' ≠ k) : objGet (pyInsert kvs k' v) k = objGet kvs k := by
  induction kvs with
  | nil => simp [pyInsert, objGet, hne]
  | cons p t ih =>
    obtain ⟨k₀, v₀⟩ := p
    by_cases h : k₀ = k'
    · subst h
      simp [pyInsert, objGet, hne]
    · by_cases h2 : k₀ = k
      · simp [pyInsert, objGet, h, h2, Ne.symm hne]
      · simp [pyInsert, objGet, h, h2, ih]

theorem benignSet_fields {x d : Json} (h : benignSet x = .ok d) :
    objGetJson d "gleason_score" = some (.str "benign") ∧
    objGetJson d "gleason_pattern" = some (.str "benign") ∧
    objGetJson d "comment" = some (.str "benign") := by
  cases x with
  | obj kvs =>
    simp only [benignSet] at h
    cases h
    refine ⟨?_, ?_, ?_⟩
    · show objGet _ "gleason_score" = _
      rw [objGet_pyInsert_other _ _ (by decide), objGet_pyInsert_other _ _ (by decide),
        objGet_pyInsert_same]
    · show objGet _ "gleason_pattern" = _
      rw [objGet_pyInsert_other _ _ (by decide), objGet_pyInsert_same]
    · show objGet _ "comment" = _
      rw [objGet_pyInsert_same]
  | null => cases h
  | bool b => cases h
  | num lex => cases h
  | str s => cases h
  | arr l => cases h

theorem braceFixCurly_id {l : List Char} (h : l.count '\x7b' ≤ l.count '\x7d') :
    braceFixCurly l = l := by
  unfold braceFixCurly
  rw [if_neg (Nat.not_lt.mpr h)]

theorem bracketFix_id {l : List Char} (h1 : l.count '\x7b' ≤ l.count '\x7d')
    (h2 : l.count '[' ≤ l.count ']') : bracketFix l = l := by
  unfold bracketFix
  rw [braceFixCurly_id h1, if_neg (Nat.not_lt.mpr h2)]

/-! ## C1 -/

/-- C1: the spec scenario claims that on the truncated reply
`\x7b"specimens": [\x7b"gleason_score": "7"` the bracket-balance step restores
all missing closers and the strict parse succeeds with one specimen.  In the
code each balance check appends at most one closer, so the repaired span
`\x7b"specimens": [\x7b"gleason_score": "7"\x7d]` still misses the outer `\x7d`
and `fix_malformed_json` returns `None`. -/
theorem c1_counterexample : fixMalformedJson c1Input = none := by rfl

/-- C1 amended: on the truncated scenario input the bracket-balance step
appends exactly one `\x7d` and one `]`, the comma-repair step changes
nothing, and the strict parse of the still-unbalanced span fails, so the
repair engine returns `None` instead of a specimen list. -/
theorem c1_amended :
    bracketFix (pyStripList c1Input.data) = c1Input.data ++ ['\x7d', ']'] ∧
    commaFixList (c1Input.data ++ ['\x7d', ']']) = c1Input.data ++ ['\x7d', ']'] ∧
    parseFullList (c1Input.data ++ ['\x7d', ']']) = none ∧
    fixMalformedJson c1Input = none := by
  refine ⟨by rfl, by rfl, by rfl, by rfl⟩

/-! ## C4 -/

/-- C4: the claim that every strict, valid JSON string passes through the
repair engine unchanged fails: `["\x7b"]` is valid JSON, but its raw brace
counts are unbalanced, the balance step appends a spurious `\x7d`, and the
strict parse of `["\x7b"]\x7d` fails, so the engine returns `None` instead of
the parsed value. -/
theorem c4_counterexample :
    pyJsonLoads c4Input = some (.arr [.str "\x7b"]) ∧
    fixMalformedJson c4Input = none := by
  refine ⟨by rfl, by rfl⟩

/-- C4 amended: a whitespace-trimmed strict valid JSON string is parsed and
returned unchanged by the repair engine provided its raw `\x7b`/`[` counts do
not exceed its `\x7d`/`]` counts and the comma-repair pattern finds no match
in it; valid JSON with an unmatched opener inside a string literal is
corrupted by the balance step and yields `None`. -/
theorem c4_amended (s : String) (v : Json)
    (hstrip : pyStrip s = s)
    (hbrace : s.data.count '\x7b' ≤ s.data.count '\x7d')
    (hbrack : s.data.count '[' ≤ s.data.count ']')
    (hcomma : commaFix s = s)
    (hvalid : pyJsonLoads s = some v) :
    fixMalformedJson s = some v := by
  have hl : pyStripList s.data = s.data := congrArg String.data hstrip
  have hc : commaFixList s.data = s.data := congrArg String.data hcomma
  unfold fixMalformedJson
  rw [hl, bracketFix_id hbrace hbrack, hc]
  exact hvalid

/-- C4 witness: a concrete trimmed, balanced valid JSON object is returned
unchanged by the repair engine. -/
theorem c4_witness : fixMalformedJson "\x7b\"a\": 1\x7d" = some (.obj [("a", .num "1")]) :=
  c4_amended "\x7b\"a\": 1\x7d" (.obj [("a", .num "1")]) rfl (by decide) (by decide) rfl rfl

/-! ## C7 -/

/-- C7: the comma-insertion step is claimed to insert a comma between two
adjacent quoted key-value fragments while leaving both intact.  The
replacement `\1,\2` drops the closing quote of the first value (group 1 does
not capture it) and the consumed whitespace, mangling the fragment so the
subsequent strict parse fails and the engine returns `None`; the intended
insertion would have parsed.  The function's own docstring says it adds
missing commas, so the code contradicts its stated purpose here. -/
theorem c7_code_bug :
    commaFix c7Input = c7Mangled ∧
    fixMalformedJson c7Input = none ∧
    pyJsonLoads c7Intended = some (.obj [("a", .str "b"), ("c", .str "d")]) := by
  refine ⟨by rfl, by rfl, by rfl⟩

/-! ## C2 -/

/-- C2: the claim that every Subject ends with a non-empty specimen list
fails: the stub is substituted only when extraction yields `None`, so a
backend reply that parses successfully to an object whose `specimens` list
is empty leaves the subject with an empty list. -/
theorem c2_counterexample :
    resolvedSpecimens16 (some c2Reply) "ACC1" 1 "no tumor seen" = .ok [] := by rfl

/-- C2 amended: a Subject's resolved specimen list is empty exactly when the
backend reply parsed successfully to an empty `specimens` list; whenever
extraction yields `None`, exactly one stub record is substituted. -/
theorem c2_amended (content : Option String) (acc : String) (ln : Nat) (report : String)
    (l : List Json) (hok : resolvedSpecimens16 content acc ln report = .ok l) :
    (l = [] ↔ extractSpecimens16 content = some []) ∧
    (extractSpecimens16 content = none → l.length = 1) := by
  simp only [resolvedSpecimens16] at hok
  cases hext : extractSpecimens16 content with
  | none =>
    rw [hext] at hok
    have hok' : applyBenign report [stubSpecimen16 acc ln] = .ok l := hok
    obtain ⟨y, hy⟩ : ∃ y, applyBenign report [stubSpecimen16 acc ln] = .ok [y] := by
      unfold applyBenign
      split
      · exact ⟨_, rfl⟩
      · exact ⟨_, rfl⟩
    rw [hy] at hok'
    cases hok'
    constructor <;> simp
  | some l0 =>
    rw [hext] at hok
    have hok' : applyBenign report l0 = .ok l := hok
    unfold applyBenign at hok'
    constructor
    · constructor
      · intro hl
        subst hl
        split at hok'
        · have hlen := eMapM_ok_length hok'
          have h0 : l0.length = 0 := hlen.symm
          rw [List.length_eq_zero] at h0
          rw [h0]
        · cases hok'
          rfl
      · intro h
        injection h with h0
        subst h0
        split at hok'
        · have hnil : Except.ok ([] : List Json) = .ok l := hok'
          cases hnil
          rfl
        · cases hok'
          rfl
    · intro h
      cases h

/-- C2 witness: for a failed extraction the amended theorem applies and the
resolved list is the single stub. -/
theorem c2_witness :
    ∃ l, resolvedSpecimens16 none "A1" 7 "clean margins" = .ok l ∧
      ((l = [] ↔ extractSpecimens16 none = some []) ∧
       (extractSpecimens16 none = none → l.length = 1)) :=
  ⟨_, rfl, c2_amended none "A1" 7 "clean margins" _ rfl⟩

/-! ## C5 -/

/-- C5: whenever the subject's report text contains "benign" in any letter
case, every resolved specimen record (extracted or stub) has its
`gleason_score`, `gleason_pattern` and `comment` forced to the string
"benign", whatever the backend returned. -/
theorem c5_benign_override (content : Option String) (acc : String) (ln : Nat)
    (report : String)
    (hben : strContainsList (pyLower report).data "benign".data = true)
    (l : List Json) (hok : resolvedSpecimens16 content acc ln report = .ok l) :
    ∀ d ∈ l, objGetJson d "gleason_score" = some (.str "benign") ∧
      objGetJson d "gleason_pattern" = some (.str "benign") ∧
      objGetJson d "comment" = some (.str "benign") := by
  intro d hd
  simp only [resolvedSpecimens16, applyBenign] at hok
  rw [if_pos hben] at hok
  obtain ⟨x, _, hfx⟩ := eMapM_ok_mem hok d hd
  exact benignSet_fields hfx

/-- C5 witness: a concrete benign report forces the three fields on the
resolved stub record. -/
theorem c5_witness :
    ∃ l, resolvedSpecimens16 none "A1" 1 "Benign prostatic tissue" = .ok l ∧
      ∀ d ∈ l, objGetJson d "gleason_score" = some (.str "benign") ∧
        objGetJson d "gleason_pattern" = some (.str "benign") ∧
        objGetJson d "comment" = some (.str "benign") :=
  ⟨_, rfl, c5_benign_override none "A1" 1 "Benign prostatic tissue" rfl _ rfl⟩

/-! ## C9 -/

/-- C9: the claim says every backend reply parsing to a JSON object makes
`get_number_of_specimens` raise `NameError`.  An empty JSON object is falsy
in Python, so the guard `response and isinstance(response, dict)` sends it
to the failure branch, which returns `(1, [])` without raising. -/
theorem c9_counterexample :
    getNumberOfSpecimens3 (some (.obj [])) = .ok failPair := by rfl

/-- C9 amended: every backend reply parsing to a non-empty JSON object makes
the function raise `NameError` while evaluating the undefined name
`specimen_text`, so only the failure branch, returning the pair `(1, [])`,
ever returns — and that pair has arity 2 while the success branch attempts
to return 3 values. -/
theorem c9_amended :
    (∀ kvs : List (String × Json), kvs ≠ [] →
      getNumberOfSpecimens3 (some (.obj kvs)) = .error .nameErr) ∧
    getNumberOfSpecimens3 (some (.obj [])) = .ok failPair ∧
    (∀ r : Option Json, (∀ kvs, r ≠ some (.obj kvs)) →
      getNumberOfSpecimens3 r = .ok failPair) ∧
    failPair.length = 2 ∧ (∀ kvs, (successItems kvs).length = 3) := by
  refine ⟨?_, rfl, ?_, rfl, fun _ => rfl⟩
  · intro kvs hne
    cases kvs with
    | nil => exact absurd rfl hne
    | cons p t => rfl
  · intro r hr
    cases r with
    | none => rfl
    | some j =>
      cases j with
      | obj kvs => exact absurd rfl (hr kvs)
      | null => rfl
      | bool b => rfl
      | num lex => rfl
      | str s => rfl
      | arr a => rfl

/-- C9 witness: a non-empty object reply raises `NameError`; a `None` reply
returns the failure pair. -/
theorem c9_witness :
    getNumberOfSpecimens3 (some (.obj [("number_of_specimens", .num "2")])) =
      .error .nameErr ∧
    getNumberOfSpecimens3 none = .ok failPair :=
  ⟨c9_amended.1 [("number_of_specimens", .num "2")] (by simp),
   c9_amended.2.2.1 none (fun _ => by simp)⟩

/-! ## C3 -/

theorem resolved_stub {content : Option String} {report : String} (acc : String) (ln : Nat)
    (hext : extractSpecimens16 content = none)
    (hben : strContainsList (pyLower report).data "benign".data = false) :
    resolvedSpecimens16 content acc ln report = .ok [stubSpecimen16 acc ln] := by
  simp only [resolvedSpecimens16]
  rw [hext]
  show applyBenign report [stubSpecimen16 acc ln] = _
  unfold applyBenign
  rw [if_neg (by rw [hben]; exact Bool.false_ne_true)]

theorem eMapM_comp_map {α β γ : Type} {f : β → Except PyErr γ} {h : α → β} (g : α → γ) :
    ∀ {l : List α}, (∀ x ∈ l, f (h x) = .ok (g x)) → eMapM f (l.map h) = .ok (l.map g) := by
  intro l
  induction l with
  | nil => intro _; rfl
  | cons x t ih =>
    intro hp
    simp only [List.map_cons, eMapM]
    rw [hp x (List.mem_cons_self x t), ih (fun y hy => hp y (List.mem_cons_of_mem x hy))]

theorem foldl_max_all_one :
    ∀ (batch : List (List Json)) (a : Nat), (∀ b ∈ batch, b.length = 1) → batch ≠ [] →
      batch.foldl (fun m l => max m l.length) a = max a 1 := by
  intro batch
  induction batch with
  | nil => intro a _ hne; exact absurd rfl hne
  | cons b t ih =>
    intro a h _
    rw [List.foldl_cons, h b (List.mem_cons_self b t)]
    cases t with
    | nil => rfl
    | cons c u =>
      rw [ih (max a 1) (fun x hx => h x (List.mem_cons_of_mem b hx)) (by simp)]
      omega

theorem rowOf_stub (acc : String) (ln : Nat) :
    rowOf 1 [stubSpecimen16 acc ln] =
      .ok (.str (if acc = "" then "subject_" ++ toString ln else acc) :: stubCells) := by rfl

/-- C3: the claim that a degraded Subject's row carries sentinel values
"unknown", 0 and an empty comment fails: the stub uses "No GS", "No GP",
"No #C" and "No comment", so the comment cell is not empty and the
gleason cell is not "unknown". -/
theorem c3_counterexample :
    pipelineRows16 [⟨none, "ACC9", 1, "negative for malignancy"⟩] =
      .ok (headersFor 1, [Json.str "ACC9" :: stubCells]) ∧
    stubCells.getLast? = some (.str "No comment") ∧
    Json.str "No comment" ≠ .str "" ∧
    stubCells.get? 1 = some (.str "No GS") ∧
    Json.str "No GS" ≠ .str "unknown" := by
  refine ⟨by rfl, by rfl, ?_, by rfl, ?_⟩
  · intro h
    injection h with h'
    exact absurd h' (by decide)
  · intro h
    injection h with h'
    exact absurd h' (by decide)

/-- C3 amended: per-subject extraction failures are contained: every subject
of an all-failed (and non-benign) batch still yields a full-width row, one
identity cell plus one stub block of the actual sentinel cells
("Specimen Unknown", "No GS", "No GP", "No #C", "unknown", five 0 flags,
"No comment"), and the whole run returns normally. -/
theorem c3_amended (subs : List SubjectInput) (hne : subs ≠ [])
    (hfail : ∀ s ∈ subs, extractSpecimens16 s.content = none ∧
      strContainsList (pyLower s.report).data "benign".data = false) :
    pipelineRows16 subs = .ok (headersFor 1, subs.map stubRowOf) ∧
    (headersFor 1).length = 1 + 11 * 1 ∧
    (∀ row ∈ subs.map stubRowOf, row.length = 1 + 11 * 1) := by
  have hres : eMapM (fun s => resolvedSpecimens16 s.content s.acc s.line s.report) subs =
      .ok (subs.map (fun s => [stubSpecimen16 s.acc s.line])) :=
    eMapM_map (fun s hs => resolved_stub s.acc s.line (hfail s hs).1 (hfail s hs).2)
  have hmax : maxLens (subs.map (fun s => [stubSpecimen16 s.acc s.line])) = 1 := by
    unfold maxLens
    rw [foldl_max_all_one _ 0 ?hlen ?hnil]
    · omega
    case hlen =>
      intro b hb
      obtain ⟨s, _, rfl⟩ := List.mem_map.mp hb
      rfl
    case hnil =>
      intro hcontr
      exact hne (List.map_eq_nil_iff.mp hcontr)
  refine ⟨?_, by decide, ?_⟩
  · unfold pipelineRows16
    rw [hres]
    cases subs with
    | nil => exact absurd rfl hne
    | cons s0 rest =>
      show flattenBatch (((s0 :: rest)).map (fun s => [stubSpecimen16 s.acc s.line])) = _
      simp only [List.map_cons, flattenBatch]
      rw [← List.map_cons (fun s => [stubSpecimen16 s.acc s.line]) s0 rest, hmax]
      rw [eMapM_comp_map stubRowOf (fun s _ => rowOf_stub s.acc s.line)]
      rfl
  · intro row hrow
    obtain ⟨s, _, rfl⟩ := List.mem_map.mp hrow
    rfl

/-- C3 witness: a concrete one-subject batch with a failed backend call
produces the full-width stub row. -/
theorem c3_witness :
    pipelineRows16 [⟨none, "B2", 4, "no tumor"⟩] =
      .ok (headersFor 1, [(⟨none, "B2", 4, "no tumor"⟩ : SubjectInput)].map stubRowOf) ∧
    (headersFor 1).length = 1 + 11 * 1 ∧
    (∀ row ∈ [(⟨none, "B2", 4, "no tumor"⟩ : SubjectInput)].map stubRowOf,
      row.length = 1 + 11 * 1) :=
  c3_amended [⟨none, "B2", 4, "no tumor"⟩] (by simp)
    (by
      intro s hs
      rw [List.mem_singleton] at hs
      subst hs
      exact ⟨rfl, rfl⟩)

/-! ## C8 -/

theorem splitlines_cons_head (c : Char) (t : List Char) :
    ∃ r, splitlines (c :: t) =
      ((c :: t).takeWhile (fun x => !isLineBreakChar x)) :: r := by
  show ∃ r, splitlinesGo (c :: t).length (c :: t) = _ :: r
  simp only [List.length_cons, splitlinesGo]
  split
  · exact ⟨[], rfl⟩
  · exact ⟨_, rfl⟩
  · exact ⟨_, rfl⟩

theorem hasPrefix_takeWhile_nb :
    ∀ (p l : List Char), (∀ c ∈ p, (!isLineBreakChar c) = true) →
      hasPrefixList p l = true →
      hasPrefixList p (l.takeWhile (fun x => !isLineBreakChar x)) = true := by
  intro p
  induction p with
  | nil => intro l _ _; rfl
  | cons pc pt ih =>
    intro l hnb h
    cases l with
    | nil => simp [hasPrefixList] at h
    | cons c cs =>
      simp only [hasPrefixList, Bool.and_eq_true, decide_eq_true_eq] at h
      obtain ⟨hpc, hrest⟩ := h
      subst hpc
      rw [List.takeWhile_cons]
      simp only [hnb pc (List.mem_cons_self pc pt), if_true]
      simp only [hasPrefixList, Bool.and_eq_true, decide_eq_true_eq]
      refine ⟨?_, ih _ (fun d hd => hnb d (List.mem_cons_of_mem pc hd)) hrest⟩
      trivial

theorem fence_nb : ∀ c ∈ fenceMarker.data, (!isLineBreakChar c) = true := by decide

theorem dropFirstFence_fenced {l : List Char}
    (h : hasPrefixList fenceMarker.data l = true) :
    dropFirstFence (splitlines l) = (splitlines l).drop 1 := by
  cases l with
  | nil => exact absurd h (by decide)
  | cons c t =>
    obtain ⟨r, hsplit⟩ := splitlines_cons_head c t
    rw [hsplit]
    simp only [dropFirstFence]
    rw [if_pos (hasPrefix_takeWhile_nb _ _ fence_nb h)]
    rfl

/-- C8: the claim says the last line is dropped when it is a bare fence
marker whether or not the first line is a fence, and that the sanitizer is
a no-op without fence markers at the ends.  On the input ` hello` + LF +
three backticks the trimmed text does not start with a fence, so nothing is
dropped: the output still ends with the fence line (and differs from the
raw input because of the trim). -/
theorem c8_counterexample :
    cleanJsonOutput c8Input = "hello\n```" ∧
    cleanJsonOutput c8Input ≠ c8Input ∧
    (splitlinesStr (cleanJsonOutput c8Input)).getLast? = some "```" := by
  refine ⟨by rfl, by decide, by rfl⟩

/-- C8 amended: the sanitizer always trims whitespace and never raises; when
the trimmed string does not start with a fence marker it returns the
trimmed input with no line dropped (even when the last line is a bare
fence); when the trimmed string starts with a fence marker it drops that
first line, then drops the last remaining line exactly when that line
starts with a fence marker, and returns the re-trimmed join. -/
theorem c8_amended (s : String) :
    (hasPrefixList fenceMarker.data (pyStripList s.data) = false →
      cleanJsonOutput s = pyStrip s) ∧
    (hasPrefixList fenceMarker.data (pyStripList s.data) = true →
      cleanJsonOutput s =
        ⟨pyStripList (joinNL (dropLastFence
          ((splitlines (pyStripList s.data)).drop 1)))⟩) := by
  constructor
  · intro h
    simp only [cleanJsonOutput]
    rw [if_neg (by rw [h]; exact Bool.false_ne_true)]
    rfl
  · intro h
    simp only [cleanJsonOutput]
    rw [if_pos h, dropFirstFence_fenced h]

/-- C8 witness: both branches of the amended description at concrete
inputs. -/
theorem c8_witness :
    cleanJsonOutput "abc" = pyStrip "abc" ∧
    cleanJsonOutput "```json\nX\n```" =
      ⟨pyStripList (joinNL (dropLastFence
        ((splitlines (pyStripList "```json\nX\n```".data)).drop 1)))⟩ :=
  ⟨(c8_amended "abc").1 rfl, (c8_amended "```json\nX\n```").2 rfl⟩

/-! ## C6 -/

theorem specimenCellsOk_length (j : Json) : (specimenCellsOk j).length = 11 := by
  cases j with
  | obj kvs =>
    cases hf : dictGetD kvs "features" (.obj []) with
    | obj fk => simp [specimenCellsOk, hf]
    | null => simp [specimenCellsOk, hf]
    | bool b => simp [specimenCellsOk, hf]
    | num lex => simp [specimenCellsOk, hf]
    | str s => simp [specimenCellsOk, hf]
    | arr a => simp [specimenCellsOk, hf]
  | null => rfl
  | bool b => rfl
  | num lex => rfl
  | str s => rfl
  | arr l => rfl

theorem specimenCells_wellShaped {j : Json} (h : specWellShaped j = true) :
    specimenCells j = .ok (specimenCellsOk j) := by
  cases j with
  | obj kvs =>
    simp only [specWellShaped] at h
    cases hf : objGet kvs "features" with
    | none => simp [specimenCells, specimenCellsOk, dictGetD, hf]
    | some v =>
      rw [hf] at h
      cases v with
      | obj fk => simp [specimenCells, specimenCellsOk, dictGetD, hf]
      | null => cases h
      | bool b => cases h
      | num lex => cases h
      | str s => cases h
      | arr a => cases h
  | null => simp [specWellShaped] at h
  | bool b => simp [specWellShaped] at h
  | num lex => simp [specWellShaped] at h
  | str s => simp [specWellShaped] at h
  | arr a => simp [specWellShaped] at h

theorem range_map_pad {β : Type} (f : Json → β) (pad : β) :
    ∀ (l : List Json) (n : Nat), l.length ≤ n →
      (List.range n).map (fun i =>
        match l.get? i with
        | some x => f x
        | none => pad) = l.map f ++ List.replicate (n - l.length) pad := by
  intro l
  induction l with
  | nil =>
    intro n _
    show (List.range n).map (fun _ => pad) = [] ++ List.replicate (n - 0) pad
    simp
  | cons x t ih =>
    intro n hn
    cases n with
    | zero => simp at hn
    | succ m =>
      rw [List.range_succ_eq_map, List.map_cons, List.map_map]
      show f x :: (List.range m).map (fun i =>
          match t.get? i with
          | some y => f y
          | none => pad) =
        (x :: t).map f ++ List.replicate (m + 1 - (x :: t).length) pad
      rw [ih m (Nat.succ_le_succ_iff.mp hn)]
      simp [Nat.succ_sub_succ]

theorem rowBlocks_wellShaped {specs : List Json} {maxN : Nat}
    (h : specs.all specWellShaped = true) (hle : specs.length ≤ maxN) :
    rowBlocks maxN specs =
      .ok (specs.map specimenCellsOk ++ List.replicate (maxN - specs.length) emptyBlock) := by
  unfold rowBlocks
  have hpt : ∀ i ∈ List.range maxN,
      (match specs.get? i with
       | some sp => specimenCells sp
       | none => .ok (List.replicate 11 (.str ""))) =
      .ok (match specs.get? i with
           | some sp => specimenCellsOk sp
           | none => emptyBlock) := by
    intro i _
    cases hg : specs.get? i with
    | some sp =>
      have hmem : sp ∈ specs := List.get?_mem hg
      have hsp : specWellShaped sp = true := List.all_eq_true.mp h sp hmem
      simp [specimenCells_wellShaped hsp]
    | none => rfl
  rw [eMapM_map hpt, range_map_pad specimenCellsOk emptyBlock specs maxN hle]

theorem flatten_blocks_length :
    ∀ (blocks : List (List Json)), (∀ b ∈ blocks, b.length = 11) →
      blocks.flatten.length = 11 * blocks.length := by
  intro blocks
  induction blocks with
  | nil => intro _; rfl
  | cons b t ih =>
    intro h
    simp only [List.flatten_cons, List.length_append, List.length_cons]
    rw [h b (List.mem_cons_self b t), ih (fun x hx => h x (List.mem_cons_of_mem b hx))]
    ring

theorem foldl_max_init_le :
    ∀ (l : List (List Json)) (a : Nat), a ≤ l.foldl (fun m x => max m x.length) a := by
  intro l
  induction l with
  | nil => intro a; exact Nat.le_refl a
  | cons b t ih =>
    intro a
    rw [List.foldl_cons]
    exact Nat.le_trans (Nat.le_max_left a b.length) (ih (max a b.length))

theorem foldl_max_ge_mem :
    ∀ (l : List (List Json)) (a : Nat) (specs : List Json), specs ∈ l →
      specs.length ≤ l.foldl (fun m x => max m x.length) a := by
  intro l
  induction l with
  | nil => intro a specs h; cases h
  | cons b t ih =>
    intro a specs h
    rw [List.foldl_cons]
    rcases List.mem_cons.mp h with h | h
    · subst h
      exact Nat.le_trans (Nat.le_max_right a specs.length) (foldl_max_init_le t _)
    · exact ih _ specs h

theorem maxLens_ge {batch : List (List Json)} {specs : List Json} (h : specs ∈ batch) :
    specs.length ≤ maxLens batch :=
  foldl_max_ge_mem batch 0 specs h

theorem headerBlock_length (i : Nat) : (headerBlock i).length = 11 := by rfl

theorem headersFor_length (n : Nat) : (headersFor n).length = 1 + 11 * n := by
  unfold headersFor
  rw [List.length_cons]
  have h : ((List.range n).flatMap headerBlock).length = 11 * n := by
    induction n with
    | zero => rfl
    | succ m ih =>
      rw [List.range_succ, List.flatMap_append, List.length_append, ih]
      show 11 * m + (headerBlock m ++ []).length = 11 * (m + 1)
      rw [List.append_nil, headerBlock_length]
      ring
  omega

theorem rowOf_wellShaped {specs : List Json} {maxN : Nat}
    (h : subjectWellShaped specs = true) (hle : specs.length ≤ maxN) :
    rowOf maxN specs = .ok (rowValOf maxN specs) := by
  cases specs with
  | nil => simp [subjectWellShaped] at h
  | cons first rest =>
    simp only [subjectWellShaped] at h
    rw [Bool.and_eq_true] at h
    obtain ⟨hsid, hall⟩ := h
    obtain ⟨v, hrow, hsidv⟩ :
        ∃ v, rowStudyId (first :: rest) = .ok v ∧ sidOf (first :: rest) = v := by
      cases first with
      | obj kvs =>
        cases hv : objGet kvs "study_id" with
        | none => simp [objGetJson, hv] at hsid
        | some v => exact ⟨v, by simp [rowStudyId, hv], by simp [sidOf, objGetJson, hv]⟩
      | null => simp [objGetJson] at hsid
      | bool b => simp [objGetJson] at hsid
      | num lex => simp [objGetJson] at hsid
      | str s => simp [objGetJson] at hsid
      | arr a => simp [objGetJson] at hsid
    unfold rowOf
    rw [hrow, rowBlocks_wellShaped hall hle]
    simp [rowValOf, hsidv]

/-- C6: for every non-empty batch of well-shaped subjects the flattening
step succeeds, every output row is the identity cell followed by the
subject's own specimen blocks in original order and then empty-string
padding blocks, every row has length `1 + 11 * max_specimen_count`, and the
header row has the same length. -/
theorem c6_rectangular (batch : List (List Json)) (hne : batch ≠ [])
    (hws : batch.all subjectWellShaped = true) :
    flattenBatch batch =
      .ok (headersFor (maxLens batch), batch.map (rowValOf (maxLens batch))) ∧
    (headersFor (maxLens batch)).length = 1 + 11 * maxLens batch ∧
    (∀ row ∈ batch.map (rowValOf (maxLens batch)),
      row.length = 1 + 11 * maxLens batch) := by
  have hallws : ∀ specs ∈ batch, subjectWellShaped specs = true :=
    fun specs hs => List.all_eq_true.mp hws specs hs
  have hrows : eMapM (rowOf (maxLens batch)) batch =
      .ok (batch.map (rowValOf (maxLens batch))) :=
    eMapM_map (fun specs hs => rowOf_wellShaped (hallws specs hs) (maxLens_ge hs))
  refine ⟨?_, headersFor_length (maxLens batch), ?_⟩
  · cases batch with
    | nil => exact absurd rfl hne
    | cons b t =>
      show flattenBatch (b :: t) = _
      simp only [flattenBatch]
      rw [hrows]
  · intro row hrow
    obtain ⟨specs, hs, rfl⟩ := List.mem_map.mp hrow
    unfold rowValOf
    rw [List.length_cons, flatten_blocks_length]
    · rw [List.length_append, List.length_map, List.length_replicate]
      have := maxLens_ge hs
      omega
    · intro blk hblk
      rcases List.mem_append.mp hblk with hb | hb
      · obtain ⟨sp, _, rfl⟩ := List.mem_map.mp hb
        exact specimenCellsOk_length sp
      · rw [List.eq_of_mem_replicate hb]
        rfl

/-- C6 witness: a concrete two-subject batch (two specimens and one
specimen) flattens to rows of width 23 with the second row padded. -/
theorem c6_witness :
    flattenBatch [[stubSpecimen16 "A" 1, stubSpecimen16 "A" 1], [stubSpecimen16 "B" 2]] =
      .ok (headersFor (maxLens [[stubSpecimen16 "A" 1, stubSpecimen16 "A" 1],
        [stubSpecimen16 "B" 2]]),
        [[stubSpecimen16 "A" 1, stubSpecimen16 "A" 1], [stubSpecimen16 "B" 2]].map
          (rowValOf (maxLens [[stubSpecimen16 "A" 1, stubSpecimen16 "A" 1],
            [stubSpecimen16 "B" 2]]))) ∧
    (headersFor (maxLens [[stubSpecimen16 "A" 1, stubSpecimen16 "A" 1],
      [stubSpecimen16 "B" 2]])).length =
      1 + 11 * maxLens [[stubSpecimen16 "A" 1, stubSpecimen16 "A" 1],
        [stubSpecimen16 "B" 2]] ∧
    (∀ row ∈ [[stubSpecimen16 "A" 1, stubSpecimen16 "A" 1], [stubSpecimen16 "B" 2]].map
        (rowValOf (maxLens [[stubSpecimen16 "A" 1, stubSpecimen16 "A" 1],
          [stubSpecimen16 "B" 2]])),
      row.length = 1 + 11 * maxLens [[stubSpecimen16 "A" 1, stubSpecimen16 "A" 1],
        [stubSpecimen16 "B" 2]]) :=
  c6_rectangular [[stubSpecimen16 "A" 1, stubSpecimen16 "A" 1], [stubSpecimen16 "B" 2]]
    (by simp) (by rfl)

/-! ## C10 -/

theorem foldl_append_length (pr : List Char → Json) :
    ∀ (l : List (List Char)) (acc : List Json),
      (l.foldl (fun acc seg => acc ++ [pr seg]) acc).length = acc.length + l.length := by
  intro l
  induction l with
  | nil => intro acc; simp
  | cons x t ih =>
    intro acc
    rw [List.foldl_cons, ih]
    simp
    omega

theorem pySplitGo_ne_nil (sep : List Char) :
    ∀ (fuel : Nat) (l acc : List Char), pySplitGo sep fuel l acc ≠ [] := by
  intro fuel
  induction fuel with
  | zero => intro l acc; simp [pySplitGo]
  | succ n ih =>
    intro l acc
    cases l with
    | nil => simp [pySplitGo]
    | cons c t =>
      by_cases hp : hasPrefixList sep (c :: t) = true
      · simp [pySplitGo, hp]
      · simp only [pySplitGo, if_neg hp]
        exact ih t (acc ++ [c])

/-- C10: in the CSV loop of new_extract_info2.py (and the identical block of
new_extract_info3.py) the number of specimen entries emitted for a subject
equals the number of segments of `report_text.split("  ")`, whatever the
backend `pr` returns, and since splitting always yields at least one
segment the specimens array is non-empty even for an empty report. -/
theorem c10_split_count (pr : List Char → Json) (report : String) :
    (subjectSpecimens pr report).length = (pySplit report "  ").length ∧
    1 ≤ (subjectSpecimens pr report).length := by
  have h1 : (subjectSpecimens pr report).length = (pySplit report "  ").length := by
    unfold subjectSpecimens
    rw [foldl_append_length]
    simp
  refine ⟨h1, ?_⟩
  rw [h1]
  unfold pySplit
  cases hsplit : pySplitGo "  ".data (report.data.length + 1) report.data [] with
  | nil => exact absurd hsplit (pySplitGo_ne_nil "  ".data _ _ _)
  | cons a t => simp

end LLMRad
